import Mathlib

/-!
# go-crons: event notifier (`cmd/main.go`) and heartbeat pinger (`main.go`)

A shallow embedding of the two schedulers of the repository and the properties
of their scheduling arithmetic, subscription fetch and notification fan-out.

Conventions of the embedding

* An instant (`time.Time`) is an `Int`: nanoseconds on the UTC time line.  Go
  stores an instant as 64-bit seconds plus nanoseconds, so every RFC3339
  instant (years 0000 to 9999) and every sum formed below is exact.
* A `time.Duration` is an `Int` of nanoseconds kept inside the signed 64-bit
  range: `Time.Sub` saturates and duration multiplication wraps, as in Go.
* A `float64` is the integer number of units of `2 ^ (-1074)` it equals; all
  finite doubles are such multiples.  Arithmetic rounds to nearest, ties to
  even, with a 53-bit significand.
* A Go `string` is a list of characters (well-formed UTF-8 text).
-/

namespace GoCrons

/-! ## Durations (package `time`) -/

/-- The constant `time.Nanosecond`. -/
def Nanosecond : Int := 1

/-- The constant `time.Second`. -/
def Second : Int := 1000000000

/-- The constant `time.Minute`. -/
def Minute : Int := 60 * Second

/-- The constant `time.Hour`. -/
def Hour : Int := 60 * Minute

/-! ## The type `float64`

A finite double is a whole number of units of `2 ^ (-1074)`, and is represented
by that number.  Results are rounded to 53 significant bits, to nearest, ties to
even; the gradual underflow below `2 ^ (-1022)` comes out of the fixed unit.
Overflow to infinity is not represented: the values of this program stay below
`2 ^ 22`. -/

/-- The quotient `a / b` rounded to the nearest whole number, ties to the even
one. -/
def roundNearestEven (a b : Nat) : Nat :=
  let q := a / b
  let r := a % b
  if 2 * r < b then q else if b < 2 * r then q + 1 else if q % 2 = 0 then q else q + 1

/-- One step of the binary search for the position of the leading bit. -/
def bitStep (n e step : Nat) : Nat := if n >>> (e + step) = 0 then e else e + step

/-- The position of the leading bit of `n`, for `0 < n < 2 ^ 4096`. -/
def floorLog2 (n : Nat) : Nat :=
  [2048, 1024, 512, 256, 128, 64, 32, 16, 8, 4, 2, 1].foldl (bitStep n) 0

/-- The quotient `num / den` rounded to 53 significant bits: the bits below the
53 leading ones are cut off by `s` and decide the rounding. -/
def round53Nat (num den : Nat) : Nat :=
  let s := floorLog2 (num / den) - 52
  roundNearestEven num (den <<< s) <<< s

/-- The signed quotient `num / den` rounded to 53 significant bits. -/
def round53 (num den : Int) : Int :=
  Int.sign num * Int.sign den * (round53Nat num.natAbs den.natAbs : Nat)

/-- The double `1.0`, in units. -/
def f64One : Int := ((1 <<< 1074 : Nat) : Int)

/-- The conversion `float64(z)` of an integer. -/
def float64 (z : Int) : Int := round53 (z * f64One) 1

/-- The sum `a + b` of two doubles. -/
def f64Add (a b : Int) : Int := round53 (a + b) 1

/-- The quotient `a / b` of two doubles, `b` not zero. -/
def f64Div (a b : Int) : Int := round53 (a * f64One) b

/-- The conversion `int(a)` of a double: the fraction is discarded. -/
def f64Trunc (a : Int) : Int := Int.tdiv a f64One

/-- The double `3.5`, in units. -/
def f64Lit3_5 : Int := ((7 <<< 1073 : Nat) : Int)

/-! ## Scheduler B (`main.go`): alignment to the 5-minute grid -/

/-- The alignment delay of `main.go`, lines 16 to 18, from the wall-clock fields
`now.Minute()`, `now.Second()` and `now.Nanosecond()`.  Go's `%` truncates. -/
def alignDelay (minute second nanosecond : Int) : Int :=
  let delay := (5 - Int.tmod minute 5) * Minute
  let delay := delay - second * Second
  let delay := delay - nanosecond * Nanosecond
  delay

/-- The wall-clock reading `hour:minute:second.nanosecond` as nanoseconds since
the wall clock showed `00:00:00`. -/
def wallClock (hour minute second nanosecond : Int) : Int :=
  hour * Hour + minute * Minute + second * Second + nanosecond * Nanosecond

/-! ## Scheduler A (`cmd/main.go`): the next event -/

/-- The least `time.Duration`. -/
def minDuration : Int := -9223372036854775808

/-- The greatest `time.Duration`. -/
def maxDuration : Int := 9223372036854775807

/-- Signed 64-bit wrap-around, the result of Go's integer arithmetic. -/
def wrapInt64 (x : Int) : Int :=
  (x + 9223372036854775808) % 18446744073709551616 - 9223372036854775808

/-- The method `Time.Sub` on readings without monotonic clock (`now` went through
`UTC()`, the epoch through `time.Parse`): the difference, or the greatest or
least duration when the difference does not fit. -/
def timeSub (t u : Int) : Int :=
  let d := t - u
  if maxDuration < d then maxDuration else if d < minDuration then minDuration else d

/-- The method `Duration.Hours`:
`float64(d / Hour) + float64(d % Hour) / (60 * 60 * 1e9)`. -/
def Hours (d : Int) : Int :=
  let hour := Int.tdiv d Hour
  let nsec := Int.tmod d Hour
  f64Add (float64 hour) (f64Div (float64 nsec) (float64 (60 * 60 * 1000000000)))

/-- The event interval of line 96, 3h30m. -/
def eventInterval : Int := 3 * Hour + 30 * Minute

/-- Line 98: `timeSinceInitial.Hours() / 3.5`, a double. -/
def intervalsPassed (timeSinceInitial : Int) : Int :=
  f64Div (Hours timeSinceInitial) f64Lit3_5

/-- Lines 95 to 104 of `main`: the event time computed from the epoch
`initialEvent` and the current instant `now`. -/
def nextEventTime (initialEvent now : Int) : Int :=
  let timeSinceInitial := timeSub now initialEvent
  let nextEventTime :=
    initialEvent +
      wrapInt64 (wrapInt64 (f64Trunc (intervalsPassed timeSinceInitial) + 1) * eventInterval)
  if now > nextEventTime then nextEventTime + eventInterval else nextEventTime

/-- Line 107: five minutes before the event. -/
def notificationTime (initialEvent now : Int) : Int :=
  nextEventTime initialEvent now + wrapInt64 (-5 * Minute)

/-- Line 108: the argument of `time.Sleep`. -/
def delay (initialEvent now : Int) : Int :=
  timeSub (notificationTime initialEvent now) now

/-- How long `time.Sleep(d)` pauses: not at all for a negative or zero `d`. -/
def sleepDuration (d : Int) : Int := if d ≤ 0 then 0 else d

/-! ## Scheduler A (`cmd/main.go`): connection string -/

/-- A Go string, as its sequence of characters. -/
abbrev Str := List Char

/-- The library function `strings.Contains`: `substr` occurs in `s` as a
contiguous block.  Every string contains the empty string. -/
def stringsContains (s substr : Str) : Bool :=
  s.tails.any (fun t => substr.isPrefixOf t)

/-- The `sslmode` step of `main`, lines 42 to 49: the connection string that is
handed to `sql.Open`. -/
def addSslmode (dbURL : Str) : Str :=
  if !stringsContains dbURL "sslmode=".toList then
    if stringsContains dbURL "?".toList then
      dbURL ++ "&sslmode=disable".toList
    else
      dbURL ++ "?sslmode=disable".toList
  else
    dbURL

/-- The parameters of a connection URL as the specification speaks of them: the
text after the first `?`, split at every `&`. -/
def specQueryParams (u : Str) : List Str :=
  ((u.dropWhile (fun c => c != '?')).drop 1).splitOn '&'

/-- The specification's reading of "`u` has an `sslmode` parameter": one of the
URL parameters of `u` is named exactly `sslmode`. -/
def specHasSslmodeParam (u : Str) : Bool :=
  (specQueryParams u).any (fun p => p.takeWhile (fun c => c != '=') == "sslmode".toList)

/-! ## Scheduler A (`cmd/main.go`): subscription fetch -/

/-- The `keys` object of a stored push subscription. -/
structure Keys where
  P256dh : Str
  Auth : Str
  deriving DecidableEq, Repr

/-- The anonymous struct that `getAllSubscriptions` decodes every row into. -/
structure Subscription where
  Endpoint : Str
  ExpirationTime : Option Int
  Keys : Keys
  deriving DecidableEq, Repr

/-- The errors `getAllSubscriptions` builds with `fmt.Errorf`, one constructor for
each format string, carrying the values that are formatted into it. -/
inductive FetchError where
  | querying (cause : Str)
  | scanning (cause : Str)
  | unescape (cause : Str) (rawSubscription : Str)
  | parse (cause : Str) (unescapedJSON : Str)
  | missingEndpoint (unescapedJSON : Str)
  | missingKeys (unescapedJSON : Str)
  | iterating (cause : Str)
  deriving DecidableEq, Repr

/-- The result set of `SELECT subscription FROM subscriptions` as the loop sees
it: for every `rows.Next()` that reports a row, what `rows.Scan` yields (the
stored text, or a driver error), and what `rows.Err()` reports at the end. -/
structure Rows where
  scans : List (Except Str Str)
  err : Option Str

/-- The two `json.Unmarshal` passes of lines 219 to 237 on one stored text: first
into a Go string (`unmarshalString`), then the resulting text into the
subscription struct (`unmarshalSubscription`).  Both are capabilities of the
`encoding/json` library and are parameters here. -/
def decodeRow (unmarshalString : Str → Except Str Str)
    (unmarshalSubscription : Str → Except Str Subscription)
    (rawSubscription : Str) : Except FetchError (Str × Subscription) :=
  match unmarshalString rawSubscription with
  | .error e => .error (.unescape e rawSubscription)
  | .ok unescapedJSON =>
    match unmarshalSubscription unescapedJSON with
    | .error e => .error (.parse e unescapedJSON)
    | .ok subscription => .ok (unescapedJSON, subscription)

/-- The required-field checks of lines 239 to 245. -/
def validateRow (unescapedJSON : Str) (subscription : Subscription) : Option FetchError :=
  if subscription.Endpoint = [] then
    some (.missingEndpoint unescapedJSON)
  else if subscription.Keys.P256dh = [] ∨ subscription.Keys.Auth = [] then
    some (.missingKeys unescapedJSON)
  else
    none

/-- The `for rows.Next()` loop of lines 213 to 254 with its accumulator
`subscriptions`; a pair is Go's `(subscriptions, err)` result and every error
exit returns `nil` for the slice. -/
def scanRows (unmarshalString : Str → Except Str Str)
    (unmarshalSubscription : Str → Except Str Subscription)
    (subscriptions : List Subscription) (err : Option Str) :
    List (Except Str Str) → List Subscription × Option FetchError
  | [] =>
    match err with
    | some e => ([], some (.iterating e))
    | none => (subscriptions, none)
  | .error e :: _ => ([], some (.scanning e))
  | .ok rawSubscription :: rest =>
    match decodeRow unmarshalString unmarshalSubscription rawSubscription with
    | .error e => ([], some e)
    | .ok (unescapedJSON, subscription) =>
      match validateRow unescapedJSON subscription with
      | some e => ([], some e)
      | none =>
        scanRows unmarshalString unmarshalSubscription (subscriptions ++ [subscription]) err rest

/-- The function `getAllSubscriptions`: `query` is the outcome of `db.Query`. -/
def getAllSubscriptions (unmarshalString : Str → Except Str Str)
    (unmarshalSubscription : Str → Except Str Subscription)
    (query : Except Str Rows) : List Subscription × Option FetchError :=
  match query with
  | .error e => ([], some (.querying e))
  | .ok rows => scanRows unmarshalString unmarshalSubscription [] rows.err rows.scans

/-- A stored text is malformed when either decode pass fails on it or the decoded
subscription lacks its endpoint or one of its two keys. -/
def rowMalformed (unmarshalString : Str → Except Str Str)
    (unmarshalSubscription : Str → Except Str Subscription) (rawSubscription : Str) : Bool :=
  match decodeRow unmarshalString unmarshalSubscription rawSubscription with
  | .error _ => true
  | .ok (_, subscription) =>
    decide (subscription.Endpoint = [] ∨ subscription.Keys.P256dh = [] ∨
      subscription.Keys.Auth = [])

/-! ## Scheduler A (`cmd/main.go`): notification fan-out -/

/-- The environment variables `sendNotifications` reads. -/
structure Vapid where
  vapidPublicKey : Str
  vapidPrivateKey : Str
  subscriber : Str
  deriving DecidableEq, Repr

/-- The arguments of one `webpush.SendNotification` call. -/
structure PushRequest where
  payload : Str
  Endpoint : Str
  Auth : Str
  P256dh : Str
  Subscriber : Str
  Urgency : Str
  VAPIDPublicKey : Str
  VAPIDPrivateKey : Str
  TTL : Int
  deriving DecidableEq, Repr

/-- The observable steps of one `sendNotifications` call, in program order. -/
inductive Event where
  | fetchErrorLogged (e : FetchError)
  | sendCalled (req : PushRequest) (err : Option Str)
  | sendErrorLogged (endpoint : Str) (cause : Str)
  | sendSuccessLogged (endpoint : Str)
  deriving DecidableEq, Repr

/-- The output of `json.Marshal` on the fixed payload struct. -/
def payloadJSON : Str :=
  ("\x7b\"title\":\"World Boss Alert!\"," ++
    "\"body\":\"A new World Boss event is starting in 5 minutes!\"\x7d").toList

/-- The request built for one subscription, lines 166 to 180. -/
def pushRequest (env : Vapid) (subscription : Subscription) : PushRequest :=
  { payload := payloadJSON
    Endpoint := subscription.Endpoint
    Auth := subscription.Keys.Auth
    P256dh := subscription.Keys.P256dh
    Subscriber := env.subscriber
    Urgency := "high".toList
    VAPIDPublicKey := env.vapidPublicKey
    VAPIDPrivateKey := env.vapidPrivateKey
    TTL := 30 }

/-- The `for _, subscription := range subscriptions` loop of lines 165 to 187.
The push service is a capability `send` acting on the state `w` of the outside
world; it returns the error of the call, if any. -/
def sendAll {W : Type} (send : W → PushRequest → Option Str × W) (env : Vapid) :
    W → List Subscription → List Event × W
  | w, [] => ([], w)
  | w, subscription :: rest =>
    let req := pushRequest env subscription
    let (err, w1) := send w req
    let logged :=
      match err with
      | some e => Event.sendErrorLogged subscription.Endpoint e
      | none => Event.sendSuccessLogged subscription.Endpoint
    let (events, w2) := sendAll send env w1 rest
    (Event.sendCalled req err :: logged :: events, w2)

/-- The function `sendNotifications`, one dispatch cycle. -/
def sendNotifications {W : Type} (unmarshalString : Str → Except Str Str)
    (unmarshalSubscription : Str → Except Str Subscription)
    (send : W → PushRequest → Option Str × W) (env : Vapid)
    (query : Except Str Rows) (w : W) : List Event × W :=
  match getAllSubscriptions unmarshalString unmarshalSubscription query with
  | (_, some err) => ([Event.fetchErrorLogged err], w)
  | (subscriptions, none) => sendAll send env w subscriptions

/-- The requests of the `webpush.SendNotification` calls in a trace, in order. -/
def sendCalls : List Event → List PushRequest
  | [] => []
  | Event.sendCalled req _ :: rest => req :: sendCalls rest
  | _ :: rest => sendCalls rest

/-- The number of `webpush.SendNotification` calls in a trace that returned an
error. -/
def failedSends : List Event → Nat
  | [] => 0
  | Event.sendCalled _ (some _) :: rest => failedSends rest + 1
  | _ :: rest => failedSends rest

/-- The number of "Error sending notification" lines in a trace. -/
def reportedFailures : List Event → Nat
  | [] => 0
  | Event.sendErrorLogged _ _ :: rest => reportedFailures rest + 1
  | _ :: rest => reportedFailures rest

/-- The call the specification prescribes for one subscription (sections 4.4
and 6): the fixed payload, the endpoint and the two keys of that subscription,
the configured subscriber and key pair, urgency high and a TTL of 30 seconds. -/
def specPushRequest (env : Vapid) (subscription : Subscription) : PushRequest :=
  { payload :=
      ("\x7b\"title\":\"World Boss Alert!\"," ++
        "\"body\":\"A new World Boss event is starting in 5 minutes!\"\x7d").toList
    Endpoint := subscription.Endpoint
    Auth := subscription.Keys.Auth
    P256dh := subscription.Keys.P256dh
    Subscriber := env.subscriber
    Urgency := ['h', 'i', 'g', 'h']
    VAPIDPublicKey := env.vapidPublicKey
    VAPIDPrivateKey := env.vapidPrivateKey
    TTL := 30 }

/-- What the push service answers when the requests `reqs` are sent to it one
after the other, each exactly once, starting from the world `w`. -/
def sendOutcomes {W : Type} (send : W → PushRequest → Option Str × W) :
    W → List PushRequest → List (Option Str)
  | _, [] => []
  | w, req :: rest => (send w req).1 :: sendOutcomes send (send w req).2 rest

/-- The world after the requests `reqs` were sent one after the other, each
exactly once, starting from the world `w`. -/
def worldAfter {W : Type} (send : W → PushRequest → Option Str × W) (w : W)
    (reqs : List PushRequest) : W :=
  reqs.foldl (fun w1 req => (send w1 req).2) w

/-- The trace the specification prescribes for a batch: for every request, in
order, the call with its outcome and then one log line for its endpoint, an
error line when the call failed and a success line otherwise. -/
def specTrace : List PushRequest → List (Option Str) → List Event
  | req :: reqs, some e :: outcomes =>
    Event.sendCalled req (some e) :: Event.sendErrorLogged req.Endpoint e ::
      specTrace reqs outcomes
  | req :: reqs, none :: outcomes =>
    Event.sendCalled req none :: Event.sendSuccessLogged req.Endpoint ::
      specTrace reqs outcomes
  | _, _ => []

/-! ## The string pass of `encoding/json`

The first `json.Unmarshal` of `getAllSubscriptions` targets a Go string.  The
decoder below follows the standard library: white space around the value, the
escapes of the scanner, `\u` escapes with UTF-16 surrogate pairs, and the
replacement rune for unpaired surrogates. -/

/-- The value of a hexadecimal digit, as `getu4` reads it. -/
def hexValue (c : Char) : Option Nat :=
  if '0' ≤ c ∧ c ≤ '9' then some (c.toNat - 48)
  else if 'a' ≤ c ∧ c ≤ 'f' then some (c.toNat - 87)
  else if 'A' ≤ c ∧ c ≤ 'F' then some (c.toNat - 55)
  else none

/-- The states of the decoder of a string literal: between escapes, after a
backslash, inside the four digits of a `\u` escape, after a complete high
surrogate escape whose partner is still to be seen (`pending` and `h` hold that
surrogate), and after the closing quote. -/
inductive UnquoteState where
  | plain
  | escape (pending : Option Nat)
  | hex (pending : Option Nat) (digits : Nat) (acc : Nat)
  | high (h : Nat)
  | closed
  deriving DecidableEq, Repr

/-- The rune `unicode.ReplacementChar`. -/
def replacementChar : Char := Char.ofNat 0xFFFD

/-- The rune of a `\uXXXX` escape with value `v`, none pending. -/
def finishUnit (out : Str) (v : Nat) : UnquoteState × Str :=
  if 0xD800 ≤ v ∧ v < 0xDC00 then (.high v, out)
  else if 0xDC00 ≤ v ∧ v < 0xE000 then (.plain, out ++ [replacementChar])
  else (.plain, out ++ [Char.ofNat v])

/-- The end of a `\u` escape with value `v`: a low surrogate completes a pending
high surrogate, anything else turns the pending one into the replacement rune. -/
def finishEscape (pending : Option Nat) (out : Str) (v : Nat) : UnquoteState × Str :=
  match pending with
  | none => finishUnit out v
  | some h =>
    if 0xDC00 ≤ v ∧ v < 0xE000 then
      (.plain, out ++ [Char.ofNat (0x10000 + (h - 0xD800) * 0x400 + (v - 0xDC00))])
    else finishUnit (out ++ [replacementChar]) v

/-- One character between escapes: quotes close the literal, control characters
are rejected, everything else stands for itself. -/
def unquotePlain (out : Str) (c : Char) : Except Str (UnquoteState × Str) :=
  if c = '"' then .ok (.closed, out)
  else if c = '\\' then .ok (.escape none, out)
  else if c.toNat < 0x20 then .error "invalid character in string literal".toList
  else .ok (.plain, out ++ [c])

/-- The character after a backslash. -/
def unquoteEscape (out : Str) (c : Char) : Except Str (UnquoteState × Str) :=
  if c = '"' ∨ c = '\\' ∨ c = '/' then .ok (.plain, out ++ [c])
  else if c = 'b' then .ok (.plain, out ++ [Char.ofNat 8])
  else if c = 'f' then .ok (.plain, out ++ [Char.ofNat 12])
  else if c = 'n' then .ok (.plain, out ++ [Char.ofNat 10])
  else if c = 'r' then .ok (.plain, out ++ [Char.ofNat 13])
  else if c = 't' then .ok (.plain, out ++ [Char.ofNat 9])
  else if c = 'u' then .ok (.hex none 0 0, out)
  else .error "invalid character in string escape code".toList

/-- One step of the decoder. -/
def unquoteStep (st : UnquoteState) (out : Str) (c : Char) : Except Str (UnquoteState × Str) :=
  match st with
  | .plain => unquotePlain out c
  | .escape none => unquoteEscape out c
  | .escape (some h) =>
    if c = 'u' then .ok (.hex (some h) 0 0, out)
    else unquoteEscape (out ++ [replacementChar]) c
  | .hex pending digits acc =>
    match hexValue c with
    | none => .error "invalid character in \\u hexadecimal character escape".toList
    | some d =>
      if digits = 3 then .ok (finishEscape pending out (acc * 16 + d))
      else .ok (.hex pending (digits + 1) (acc * 16 + d), out)
  | .high h =>
    if c = '\\' then .ok (.escape (some h), out)
    else unquotePlain (out ++ [replacementChar]) c
  | .closed => .error "invalid character after top-level value".toList

/-- The decoder run over the characters after the opening quote. -/
def unquoteRun : UnquoteState → Str → Str → Except Str (UnquoteState × Str)
  | st, out, [] => .ok (st, out)
  | st, out, c :: cs =>
    match unquoteStep st out c with
    | .error e => .error e
    | .ok (st1, out1) => unquoteRun st1 out1 cs

/-- The four JSON white-space characters. -/
def isJSONSpace (c : Char) : Bool := c = ' ' || c = '\t' || c = '\r' || c = '\n'

/-- The text without leading and trailing JSON white space. -/
def trimJSONSpace (s : Str) : Str :=
  ((s.dropWhile isJSONSpace).reverse.dropWhile isJSONSpace).reverse

/-- The call `json.Unmarshal(data, &s)` for a fresh Go string `s`, as the standard
library package `encoding/json` performs it: a string literal is decoded, `null`
leaves `s` empty, any other input is an error. -/
def unmarshalString (data : Str) : Except Str Str :=
  let v := trimJSONSpace data
  if v = "null".toList then .ok []
  else
    match v with
    | '"' :: body =>
      match unquoteRun .plain [] body with
      | .error e => .error e
      | .ok (.closed, out) => .ok out
      | .ok _ => .error "unexpected end of JSON input".toList
    | _ => .error "json: cannot unmarshal into Go value of type string".toList

/-- The lower-case hexadecimal digit of `n < 16`. -/
def hexDigit (n : Nat) : Char :=
  if n < 10 then Char.ofNat (48 + n) else Char.ofNat (87 + n)

/-- The form of one character inside a JSON string literal (RFC 8259, section 7):
quote, backslash and control characters are escaped, all others stand for
themselves. -/
def escapeChar (c : Char) : Str :=
  if c = '"' then ['\\', '"']
  else if c = '\\' then ['\\', '\\']
  else if c = Char.ofNat 8 then ['\\', 'b']
  else if c = Char.ofNat 12 then ['\\', 'f']
  else if c = Char.ofNat 10 then ['\\', 'n']
  else if c = Char.ofNat 13 then ['\\', 'r']
  else if c = Char.ofNat 9 then ['\\', 't']
  else if c.toNat < 0x20 then
    ['\\', 'u', '0', '0', hexDigit (c.toNat / 16), hexDigit (c.toNat % 16)]
  else [c]

/-- The JSON string literal that encodes the text `d`, as `JSON.stringify` and
`json.Marshal` without HTML escaping write it. -/
def jsonStringLiteral (d : Str) : Str :=
  '"' :: (d.flatMap escapeChar ++ ['"'])


/-! ### Sample data for the fetch and the fan-out -/

/-- A sample `unmarshalString` pass that accepts every text as it stands. -/
def sampleUnmarshalString (s : Str) : Except Str Str := .ok s

/-- A sample `unmarshalSubscription` pass: the whole text is taken as the
endpoint and as both keys. -/
def sampleUnmarshalSubscription (s : Str) : Except Str Subscription :=
  .ok { Endpoint := s, ExpirationTime := none, Keys := { P256dh := s, Auth := s } }

/-- Three valid sample subscriptions. -/
def sampleSubscriptions : List Subscription :=
  [ { Endpoint := "https://push.example/a".toList, ExpirationTime := none,
      Keys := { P256dh := "pa".toList, Auth := "aa".toList } },
    { Endpoint := "https://push.example/b".toList, ExpirationTime := none,
      Keys := { P256dh := "pb".toList, Auth := "ab".toList } },
    { Endpoint := "https://push.example/c".toList, ExpirationTime := none,
      Keys := { P256dh := "pc".toList, Auth := "ac".toList } } ]

/-- A sample push service whose state counts the calls made so far and whose
second call fails. -/
def sampleSendSecondFails (w : Nat) (_ : PushRequest) : Option Str × Nat :=
  (if w = 1 then some "410 Gone".toList else none, w + 1)

/-- A sample result set of three rows, each valid for the sample decoders. -/
def sampleRows : Rows :=
  { scans := [Except.ok "https://push.example/a".toList,
      Except.ok "https://push.example/b".toList,
      Except.ok "https://push.example/c".toList],
    err := none }

/-- Sample credentials. -/
def sampleVapid : Vapid :=
  { vapidPublicKey := "pub".toList, vapidPrivateKey := "priv".toList,
    subscriber := "mailto:ops@example.org".toList }

/-! ### Proofs: Scheduler B -/

/-- C4: for every wall-clock reading (minute in 0..59, second in 0..59,
nanosecond in 0..999999999) the alignment delay is positive and at most five
minutes, the instant `now + delay` lies on the 5-minute wall-clock grid (at
minute `5 * (minute / 5 + 1)`, second 0, nanosecond 0), no grid point lies
strictly between `now` and `now + delay`, and at `12:03:17` the delay is 1m43s
with target `12:05:00`. -/
theorem alignDelay_next_boundary (hour minute second nanosecond : Int)
    (hm : 0 ≤ minute ∧ minute ≤ 59) (hs : 0 ≤ second ∧ second ≤ 59)
    (hn : 0 ≤ nanosecond ∧ nanosecond ≤ 999999999) :
    0 < alignDelay minute second nanosecond ∧
    alignDelay minute second nanosecond ≤ 5 * Minute ∧
    wallClock hour minute second nanosecond + alignDelay minute second nanosecond
      = wallClock hour (5 * (minute / 5 + 1)) 0 0 ∧
    (wallClock hour minute second nanosecond + alignDelay minute second nanosecond)
      % (5 * Minute) = 0 ∧
    (∀ t : Int, wallClock hour minute second nanosecond < t →
      t < wallClock hour minute second nanosecond + alignDelay minute second nanosecond →
      t % (5 * Minute) ≠ 0) ∧
    alignDelay 3 17 0 = 1 * Minute + 43 * Second ∧
    wallClock 12 3 17 0 + alignDelay 3 17 0 = wallClock 12 5 0 0 := by
  obtain ⟨hm0, hm1⟩ := hm
  obtain ⟨hs0, hs1⟩ := hs
  obtain ⟨hn0, hn1⟩ := hn
  have htm : Int.tmod minute 5 = minute % 5 := Int.tmod_eq_emod hm0 (by decide)
  simp only [alignDelay, wallClock, Hour, Minute, Second, Nanosecond, htm]
  refine ⟨by omega, by omega, by omega, by omega, ?_, by decide, by decide⟩
  intro t h1 h2
  omega

/-- Witness for C4 at the reading `12:03:17.000000000`. -/
theorem alignDelay_next_boundary_witness :
    0 < alignDelay 3 17 0 ∧ alignDelay 3 17 0 ≤ 5 * Minute ∧
    wallClock 12 3 17 0 + alignDelay 3 17 0 = wallClock 12 (5 * (3 / 5 + 1)) 0 0 ∧
    (wallClock 12 3 17 0 + alignDelay 3 17 0) % (5 * Minute) = 0 ∧
    (∀ t : Int, wallClock 12 3 17 0 < t →
      t < wallClock 12 3 17 0 + alignDelay 3 17 0 → t % (5 * Minute) ≠ 0) ∧
    alignDelay 3 17 0 = 1 * Minute + 43 * Second ∧
    wallClock 12 3 17 0 + alignDelay 3 17 0 = wallClock 12 5 0 0 :=
  alignDelay_next_boundary 12 3 17 0 (by decide) (by decide) (by decide)

/-! ### Proofs: connection string -/

/-- `stringsContains` decides the infix relation on lists. -/
theorem stringsContains_iff (s substr : Str) :
    stringsContains s substr = true ↔ substr <:+: s := by
  simp only [stringsContains, List.any_eq_true, List.mem_tails, List.isPrefixOf_iff_prefix]
  constructor
  · rintro ⟨t, ht, hp⟩
    exact hp.isInfix.trans ht.isInfix
  · intro h
    obtain ⟨t, hp, hs⟩ := List.infix_iff_prefix_suffix.mp h
    exact ⟨t, hs, hp⟩

/-- A block found in the appended part is found in the whole. -/
theorem stringsContains_append_right (s t substr : Str)
    (h : stringsContains t substr = true) : stringsContains (s ++ t) substr = true := by
  rw [stringsContains_iff] at h ⊢
  exact h.trans (List.suffix_append s t).isInfix

/-- C9, as the claim states it, fails: the URL
`postgres://h/db?application_name=sslmode=1` has one parameter, named
`application_name`, and none named `sslmode`; yet the code leaves it unchanged,
so nothing is appended and the result carries no `sslmode` parameter either. -/
theorem addSslmode_param_counterexample :
    specHasSslmodeParam "postgres://h/db?application_name=sslmode=1".toList = false ∧
    addSslmode "postgres://h/db?application_name=sslmode=1".toList
      = "postgres://h/db?application_name=sslmode=1".toList ∧
    addSslmode "postgres://h/db?application_name=sslmode=1".toList
      ≠ "postgres://h/db?application_name=sslmode=1".toList ++ "&sslmode=disable".toList ∧
    specHasSslmodeParam (addSslmode "postgres://h/db?application_name=sslmode=1".toList)
      = false := by
  decide

/-- C9 (amended): with "has an `sslmode` parameter" read as "contains the text
`sslmode=`", a string without it gets `?sslmode=disable` appended when it has no
`?` and `&sslmode=disable` otherwise, a string with it is used unchanged, the
result always contains `sslmode=`, and the step is idempotent. -/
theorem addSslmode_spec (u : Str) :
    (stringsContains u "sslmode=".toList = false → stringsContains u "?".toList = false →
      addSslmode u = u ++ "?sslmode=disable".toList) ∧
    (stringsContains u "sslmode=".toList = false → stringsContains u "?".toList = true →
      addSslmode u = u ++ "&sslmode=disable".toList) ∧
    (stringsContains u "sslmode=".toList = true → addSslmode u = u) ∧
    stringsContains (addSslmode u) "sslmode=".toList = true ∧
    addSslmode (addSslmode u) = addSslmode u := by
  have hq : stringsContains "?sslmode=disable".toList "sslmode=".toList = true := by decide
  have ha : stringsContains "&sslmode=disable".toList "sslmode=".toList = true := by decide
  have hyes : ∀ v : Str, stringsContains v "sslmode=".toList = true → addSslmode v = v := by
    intro v hv
    simp only [addSslmode, hv, Bool.not_true, Bool.false_eq_true, if_false]
  have hno1 : stringsContains u "sslmode=".toList = false → stringsContains u "?".toList = false →
      addSslmode u = u ++ "?sslmode=disable".toList := by
    intro h1 h2
    simp only [addSslmode, h1, h2, Bool.not_false, Bool.false_eq_true, if_true, if_false]
  have hno2 : stringsContains u "sslmode=".toList = false → stringsContains u "?".toList = true →
      addSslmode u = u ++ "&sslmode=disable".toList := by
    intro h1 h2
    simp only [addSslmode, h1, h2, Bool.not_false, if_true]
  have key : stringsContains (addSslmode u) "sslmode=".toList = true := by
    cases h : stringsContains u "sslmode=".toList
    · cases h2 : stringsContains u "?".toList
      · rw [hno1 h h2]
        exact stringsContains_append_right _ _ _ hq
      · rw [hno2 h h2]
        exact stringsContains_append_right _ _ _ ha
    · rw [hyes u h]
      exact h
  exact ⟨hno1, hno2, hyes u, key, hyes _ key⟩

/-- Witness for C9 (amended) at `postgres://h/db`, the `?` branch. -/
theorem addSslmode_spec_witness :
    stringsContains "postgres://h/db".toList "sslmode=".toList = false ∧
    stringsContains "postgres://h/db".toList "?".toList = false ∧
    addSslmode "postgres://h/db".toList = "postgres://h/db".toList ++ "?sslmode=disable".toList :=
  ⟨by decide, by decide,
    (addSslmode_spec "postgres://h/db".toList).1 (by decide) (by decide)⟩

/-! ### Proofs: subscription fetch and fan-out -/

/-- The field checks pass exactly when endpoint and both keys are non-empty. -/
theorem validateRow_none_iff (unescapedJSON : Str) (subscription : Subscription) :
    validateRow unescapedJSON subscription = none ↔
      ¬ (subscription.Endpoint = [] ∨ subscription.Keys.P256dh = [] ∨
        subscription.Keys.Auth = []) := by
  unfold validateRow
  by_cases h1 : subscription.Endpoint = []
  · simp [h1]
  · by_cases h2 : subscription.Keys.P256dh = [] ∨ subscription.Keys.Auth = []
    · simp [h1, h2]
    · simp [h1, h2]

/-- Every error exit of the row loop returns no subscriptions. -/
theorem scanRows_error_nil (unmarshalString : Str → Except Str Str)
    (unmarshalSubscription : Str → Except Str Subscription) (err : Option Str)
    (scans : List (Except Str Str)) :
    ∀ subscriptions : List Subscription, ∀ e : FetchError,
      (scanRows unmarshalString unmarshalSubscription subscriptions err scans).2 = some e →
      (scanRows unmarshalString unmarshalSubscription subscriptions err scans).1 = [] := by
  induction scans with
  | nil =>
    intro subscriptions e h
    cases err with
    | none => simp [scanRows] at h
    | some c => simp [scanRows]
  | cons hd tl ih =>
    intro subscriptions e h
    cases hd with
    | error c => simp [scanRows]
    | ok raw =>
      cases hdec : decodeRow unmarshalString unmarshalSubscription raw with
      | error c => simp only [scanRows, hdec]
      | ok pr =>
        obtain ⟨u, sub⟩ := pr
        cases hval : validateRow u sub with
        | some c => simp only [scanRows, hdec, hval]
        | none =>
          simp only [scanRows, hdec, hval] at h ⊢
          exact ih _ e h

/-- A malformed row among the scanned ones makes the row loop fail, whatever it
has accumulated. -/
theorem scanRows_malformed (unmarshalString : Str → Except Str Str)
    (unmarshalSubscription : Str → Except Str Subscription) (err : Option Str)
    (scans : List (Except Str Str)) (raw : Str)
    (hmem : Except.ok raw ∈ scans)
    (hbad : rowMalformed unmarshalString unmarshalSubscription raw = true) :
    ∀ subscriptions : List Subscription,
      ∃ e, scanRows unmarshalString unmarshalSubscription subscriptions err scans
        = ([], some e) := by
  induction scans with
  | nil => exact absurd hmem (List.not_mem_nil _)
  | cons hd tl ih =>
    intro subscriptions
    cases hd with
    | error c => exact ⟨FetchError.scanning c, by simp only [scanRows]⟩
    | ok raw0 =>
      cases hdec : decodeRow unmarshalString unmarshalSubscription raw0 with
      | error c => exact ⟨c, by simp only [scanRows, hdec]⟩
      | ok pr =>
        obtain ⟨u, sub⟩ := pr
        cases hval : validateRow u sub with
        | some c => exact ⟨c, by simp only [scanRows, hdec, hval]⟩
        | none =>
          simp only [scanRows, hdec, hval]
          rcases List.mem_cons.mp hmem with heq | htl
          · exfalso
            have hr : raw = raw0 := by injection heq
            subst hr
            have hv := (validateRow_none_iff u sub).mp hval
            simp only [rowMalformed, hdec, decide_eq_true_eq] at hbad
            exact hv hbad
          · exact ih htl _

/-- C5: whatever rows come before and after it, a stored row that fails a decode
pass or decodes to a subscription without endpoint, `p256dh` or `auth` makes
`getAllSubscriptions` return an error together with no subscriptions. -/
theorem getAllSubscriptions_malformed_row (unmarshalString : Str → Except Str Str)
    (unmarshalSubscription : Str → Except Str Subscription)
    (before after : List (Except Str Str)) (err : Option Str) (raw : Str)
    (hbad : rowMalformed unmarshalString unmarshalSubscription raw = true) :
    ∃ e, getAllSubscriptions unmarshalString unmarshalSubscription
      (.ok { scans := before ++ Except.ok raw :: after, err := err }) = ([], some e) := by
  unfold getAllSubscriptions
  exact scanRows_malformed unmarshalString unmarshalSubscription err _ raw
    (List.mem_append_right _ (List.mem_cons_self _ _)) hbad []

/-- Witness for C5: an empty stored text between two valid rows. -/
theorem getAllSubscriptions_malformed_row_witness :
    rowMalformed sampleUnmarshalString sampleUnmarshalSubscription [] = true ∧
    ∃ e, getAllSubscriptions sampleUnmarshalString sampleUnmarshalSubscription
      (.ok { scans := [Except.ok "a".toList] ++ Except.ok [] :: [Except.ok "b".toList],
             err := none }) = ([], some e) :=
  ⟨by decide,
    getAllSubscriptions_malformed_row sampleUnmarshalString sampleUnmarshalSubscription
      [Except.ok "a".toList] [Except.ok "b".toList] none [] (by decide)⟩

/-- The trace of the send loop: one call for each subscription, in order, and one
logged error for each failed call. -/
theorem sendAll_trace {W : Type} (send : W → PushRequest → Option Str × W) (env : Vapid)
    (subscriptions : List Subscription) :
    ∀ w : W,
      sendCalls (sendAll send env w subscriptions).1 = subscriptions.map (pushRequest env) ∧
      reportedFailures (sendAll send env w subscriptions).1
        = failedSends (sendAll send env w subscriptions).1 := by
  induction subscriptions with
  | nil => intro w; simp [sendAll, sendCalls, reportedFailures, failedSends]
  | cons hd tl ih =>
    intro w
    obtain ⟨h1, h2⟩ := ih (send w (pushRequest env hd)).2
    cases hs : (send w (pushRequest env hd)).1 with
    | none =>
      simp only [sendAll, hs, sendCalls, reportedFailures, failedSends, List.map_cons, h1, h2,
        and_self]
    | some c =>
      simp only [sendAll, hs, sendCalls, reportedFailures, failedSends, List.map_cons, h1, h2,
        and_self]

/-- The request built by the code is the one the specification prescribes. -/
theorem pushRequest_eq_spec (env : Vapid) (subscription : Subscription) :
    pushRequest env subscription = specPushRequest env subscription := rfl

/-- The send loop, in full: its trace is the prescribed one for the outcomes the
push service gives, and it leaves the world that sending every request exactly
once, in order, leaves. -/
theorem sendAll_run {W : Type} (send : W → PushRequest → Option Str × W) (env : Vapid)
    (subscriptions : List Subscription) :
    ∀ w : W,
      (sendAll send env w subscriptions).1
        = specTrace (subscriptions.map (specPushRequest env))
            (sendOutcomes send w (subscriptions.map (specPushRequest env))) ∧
      (sendAll send env w subscriptions).2
        = worldAfter send w (subscriptions.map (specPushRequest env)) := by
  induction subscriptions with
  | nil => intro w; exact ⟨rfl, rfl⟩
  | cons hd tl ih =>
    intro w
    obtain ⟨h1, h2⟩ := ih (send w (specPushRequest env hd)).2
    cases hs : (send w (specPushRequest env hd)).1 with
    | none =>
      simp only [sendAll, pushRequest_eq_spec, hs, List.map_cons, sendOutcomes, specTrace,
        worldAfter, List.foldl_cons, h1]
      exact ⟨rfl, h2⟩
    | some c =>
      simp only [sendAll, pushRequest_eq_spec, hs, List.map_cons, sendOutcomes, specTrace,
        worldAfter, List.foldl_cons, h1]
      exact ⟨rfl, h2⟩

/-- The prescribed trace holds as many error lines as outcomes are errors. -/
theorem reportedFailures_specTrace {W : Type} (send : W → PushRequest → Option Str × W)
    (reqs : List PushRequest) :
    ∀ w : W, reportedFailures (specTrace reqs (sendOutcomes send w reqs))
      = (sendOutcomes send w reqs).countP (fun o => o.isSome) := by
  induction reqs with
  | nil => intro w; rfl
  | cons hd tl ih =>
    intro w
    cases hs : (send w hd).1 with
    | none =>
      simp only [sendOutcomes, hs, specTrace, reportedFailures, ih, Option.isSome_none,
        Bool.false_eq_true, not_false_eq_true, List.countP_cons_of_neg]
    | some c =>
      simp only [sendOutcomes, hs, specTrace, reportedFailures, ih, Option.isSome_some,
        List.countP_cons_of_pos]

/-- C6: when the fetch succeeds with the list `subscriptions`, one
`sendNotifications` cycle sends, for every push service `send` and every state
of the world, exactly the prescribed request of each subscription, once and in
list order: the world it leaves is the one these calls leave one after the
other, whatever they return, and its trace records each call with the outcome
the service gave, followed by the log line for that endpoint.  It logs as many
send errors as calls failed.  With three subscriptions and a failing second call
there are three calls, one logged failure, and the service has been called three
times. -/
theorem sendNotifications_fan_out {W : Type} (unmarshalString : Str → Except Str Str)
    (unmarshalSubscription : Str → Except Str Subscription)
    (send : W → PushRequest → Option Str × W) (env : Vapid) (query : Except Str Rows) (w : W)
    (subscriptions : List Subscription)
    (hfetch : getAllSubscriptions unmarshalString unmarshalSubscription query
      = (subscriptions, none)) :
    (sendNotifications unmarshalString unmarshalSubscription send env query w).2
      = worldAfter send w (subscriptions.map (specPushRequest env)) ∧
    (sendNotifications unmarshalString unmarshalSubscription send env query w).1
      = specTrace (subscriptions.map (specPushRequest env))
          (sendOutcomes send w (subscriptions.map (specPushRequest env))) ∧
    sendCalls (sendNotifications unmarshalString unmarshalSubscription send env query w).1
      = subscriptions.map (specPushRequest env) ∧
    sendCalls (sendNotifications unmarshalString unmarshalSubscription send env query w).1
      = subscriptions.map (pushRequest env) ∧
    reportedFailures (sendNotifications unmarshalString unmarshalSubscription send env query w).1
      = (sendOutcomes send w (subscriptions.map (specPushRequest env))).countP
          (fun o => o.isSome) ∧
    reportedFailures (sendNotifications unmarshalString unmarshalSubscription send env query w).1
      = failedSends (sendNotifications unmarshalString unmarshalSubscription send env query w).1 ∧
    (sendCalls (sendAll sampleSendSecondFails sampleVapid 0 sampleSubscriptions).1).length = 3 ∧
    reportedFailures (sendAll sampleSendSecondFails sampleVapid 0 sampleSubscriptions).1 = 1 ∧
    (sendCalls (sendNotifications sampleUnmarshalString sampleUnmarshalSubscription
      sampleSendSecondFails sampleVapid (.ok sampleRows) 0).1).length = 3 ∧
    reportedFailures (sendNotifications sampleUnmarshalString sampleUnmarshalSubscription
      sampleSendSecondFails sampleVapid (.ok sampleRows) 0).1 = 1 ∧
    (sendNotifications sampleUnmarshalString sampleUnmarshalSubscription
      sampleSendSecondFails sampleVapid (.ok sampleRows) 0).2 = 3 := by
  have hs : sendNotifications unmarshalString unmarshalSubscription send env query w
      = sendAll send env w subscriptions := by
    simp only [sendNotifications, hfetch]
  have hrun := sendAll_run send env subscriptions w
  have htr := sendAll_trace send env subscriptions w
  rw [hs]
  refine ⟨hrun.2, hrun.1, ?_, htr.1, ?_, htr.2, by decide, by decide, by decide, by decide,
    by decide⟩
  · rw [htr.1]
    exact List.map_congr_left (fun s _ => pushRequest_eq_spec env s)
  · rw [hrun.1]
    exact reportedFailures_specTrace send _ w

/-- C7: a malformed stored row anywhere in the result set makes the whole cycle
log the fetch error and call the push service not at all, also for the valid rows
in front of it; the outside world is left as it was. -/
theorem sendNotifications_malformed_no_send {W : Type}
    (unmarshalString : Str → Except Str Str)
    (unmarshalSubscription : Str → Except Str Subscription)
    (send : W → PushRequest → Option Str × W) (env : Vapid) (w : W)
    (before after : List (Except Str Str)) (err : Option Str) (raw : Str)
    (hbad : rowMalformed unmarshalString unmarshalSubscription raw = true) :
    sendCalls (sendNotifications unmarshalString unmarshalSubscription send env
      (.ok { scans := before ++ Except.ok raw :: after, err := err }) w).1 = [] ∧
    (∃ e, (sendNotifications unmarshalString unmarshalSubscription send env
      (.ok { scans := before ++ Except.ok raw :: after, err := err }) w).1
        = [Event.fetchErrorLogged e]) ∧
    (sendNotifications unmarshalString unmarshalSubscription send env
      (.ok { scans := before ++ Except.ok raw :: after, err := err }) w).2 = w := by
  obtain ⟨e, he⟩ := scanRows_malformed unmarshalString unmarshalSubscription err
    (before ++ Except.ok raw :: after) raw
    (List.mem_append_right _ (List.mem_cons_self _ _)) hbad []
  have hs : sendNotifications unmarshalString unmarshalSubscription send env
      (.ok { scans := before ++ Except.ok raw :: after, err := err }) w
      = ([Event.fetchErrorLogged e], w) := by
    simp only [sendNotifications, getAllSubscriptions, he]
  rw [hs]
  exact ⟨rfl, ⟨e, rfl⟩, rfl⟩

/-! ### Proofs: double decoding -/

/-- The decoder reads the six-character escape of a control character back. -/
theorem unquoteRun_control (n : Nat) (hn : n < 32) (out rest : Str) :
    unquoteRun .plain out
      ('\\' :: 'u' :: '0' :: '0' :: hexDigit (n / 16) :: hexDigit (n % 16) :: rest)
      = unquoteRun .plain (out ++ [Char.ofNat n]) rest := by
  interval_cases n <;> rfl

/-- The decoder reads the encoded form of one character back. -/
theorem unquoteRun_escapeChar (c : Char) (out rest : Str) :
    unquoteRun .plain out (escapeChar c ++ rest) = unquoteRun .plain (out ++ [c]) rest := by
  unfold escapeChar
  split_ifs with h1 h2 h3 h4 h5 h6 h7 h8
  · subst h1; rfl
  · subst h2; rfl
  · subst h3; rfl
  · subst h4; rfl
  · subst h5; rfl
  · subst h6; rfl
  · subst h7; rfl
  · have := unquoteRun_control c.toNat h8 out rest
    simpa [Char.ofNat_toNat] using this
  · simp [unquoteRun, unquoteStep, unquotePlain, h1, h2, h8]

/-- The decoder reads the body of an encoded literal back and stops at its quote. -/
theorem unquoteRun_body (d : Str) : ∀ out : Str,
    unquoteRun .plain out (d.flatMap escapeChar ++ ['"']) = .ok (.closed, out ++ d) := by
  induction d with
  | nil => intro out; simp [unquoteRun, unquoteStep, unquotePlain]
  | cons c cs ih =>
    intro out
    rw [List.flatMap_cons, List.append_assoc, unquoteRun_escapeChar, ih]
    simp

/-- Decoding the string literal of a text gives the text. -/
theorem unmarshalString_literal (d : Str) : unmarshalString (jsonStringLiteral d) = .ok d := by
  have ht : trimJSONSpace (jsonStringLiteral d) = jsonStringLiteral d := by
    simp [trimJSONSpace, jsonStringLiteral, isJSONSpace, List.dropWhile]
  unfold unmarshalString
  simp only [ht]
  simp [jsonStringLiteral, unquoteRun_body]

/-- C8: for every text `d`, the two decode passes of `getAllSubscriptions` on the
JSON string literal that encodes `d` give what parsing `d` once gives: the same
subscription when `d` parses, and a parse error about `d` when it does not. -/
theorem decodeRow_double_encoded (unmarshalSubscription : Str → Except Str Subscription)
    (d : Str) :
    decodeRow unmarshalString unmarshalSubscription (jsonStringLiteral d) =
      match unmarshalSubscription d with
      | .ok subscription => .ok (d, subscription)
      | .error e => .error (.parse e d) := by
  simp only [decodeRow, unmarshalString_literal]
  cases unmarshalSubscription d <;> rfl

/-- Witness for C6: two stored rows, fetched and dispatched with the sample
capabilities; the service, which counts its calls, has been called twice, and
both requests carry the endpoint of their row. -/
theorem sendNotifications_fan_out_witness :
    getAllSubscriptions sampleUnmarshalString sampleUnmarshalSubscription
      (.ok { scans := [Except.ok "a".toList, Except.ok "b".toList], err := none })
      = ([ { Endpoint := "a".toList, ExpirationTime := none,
             Keys := { P256dh := "a".toList, Auth := "a".toList } },
           { Endpoint := "b".toList, ExpirationTime := none,
             Keys := { P256dh := "b".toList, Auth := "b".toList } } ], none) ∧
    (sendNotifications sampleUnmarshalString sampleUnmarshalSubscription
      sampleSendSecondFails sampleVapid
      (.ok { scans := [Except.ok "a".toList, Except.ok "b".toList], err := none }) 0).2
      = worldAfter sampleSendSecondFails 0
          ([ ({ Endpoint := "a".toList, ExpirationTime := none,
                Keys := { P256dh := "a".toList, Auth := "a".toList } } : Subscription),
             { Endpoint := "b".toList, ExpirationTime := none,
               Keys := { P256dh := "b".toList, Auth := "b".toList } } ].map
            (specPushRequest sampleVapid)) ∧
    sendCalls (sendNotifications sampleUnmarshalString sampleUnmarshalSubscription
      sampleSendSecondFails sampleVapid
      (.ok { scans := [Except.ok "a".toList, Except.ok "b".toList], err := none }) 0).1
      = [ ({ Endpoint := "a".toList, ExpirationTime := none,
             Keys := { P256dh := "a".toList, Auth := "a".toList } } : Subscription),
          { Endpoint := "b".toList, ExpirationTime := none,
            Keys := { P256dh := "b".toList, Auth := "b".toList } } ].map
          (specPushRequest sampleVapid) :=
  have h := sendNotifications_fan_out sampleUnmarshalString sampleUnmarshalSubscription
    sampleSendSecondFails sampleVapid
    (.ok { scans := [Except.ok "a".toList, Except.ok "b".toList], err := none }) 0
    [ { Endpoint := "a".toList, ExpirationTime := none,
        Keys := { P256dh := "a".toList, Auth := "a".toList } },
      { Endpoint := "b".toList, ExpirationTime := none,
        Keys := { P256dh := "b".toList, Auth := "b".toList } } ]
    rfl
  ⟨rfl, h.1, h.2.2.1⟩

/-- Witness for C7: a row that is a JSON object, not a string literal, between
two valid rows. -/
theorem sendNotifications_malformed_no_send_witness :
    rowMalformed unmarshalString sampleUnmarshalSubscription "\x7b\x7d".toList = true ∧
    sendCalls (sendNotifications unmarshalString sampleUnmarshalSubscription
      sampleSendSecondFails sampleVapid
      (.ok { scans := [Except.ok "\"a\"".toList] ++ Except.ok "\x7b\x7d".toList
               :: [Except.ok "\"b\"".toList], err := none }) 0).1 = [] :=
  ⟨by decide,
    (sendNotifications_malformed_no_send unmarshalString sampleUnmarshalSubscription
      sampleSendSecondFails sampleVapid 0 [Except.ok "\"a\"".toList] [Except.ok "\"b\"".toList]
      none "\x7b\x7d".toList (by decide)).1⟩

/-! ### Proofs: rounding to a double -/

/-- Rounding does not go below the floor of the quotient. -/
theorem roundNearestEven_ge (a b : Nat) : a / b ≤ roundNearestEven a b := by
  unfold roundNearestEven
  simp only
  split_ifs <;> omega

/-- Rounding does not go above a whole number that bounds the quotient. -/
theorem roundNearestEven_le (a b c : Nat) (hb : 0 < b) (h : a ≤ c * b) :
    roundNearestEven a b ≤ c := by
  have hq : a / b ≤ c := Nat.div_le_of_le_mul (by rw [Nat.mul_comm]; exact h)
  have hlt : 0 < a % b → a / b + 1 ≤ c := by
    intro hr
    by_contra hcon
    have hc : c = a / b := by omega
    have hda := Nat.div_add_mod a b
    rw [hc, Nat.mul_comm] at h
    omega
  unfold roundNearestEven
  simp only
  split_ifs <;> omega

/-- A search step keeps the found position at or below the leading bit. -/
theorem bitStep_spec (n e step : Nat) (h : e = 0 ∨ 2 ^ e ≤ n) :
    bitStep n e step = 0 ∨ 2 ^ bitStep n e step ≤ n := by
  unfold bitStep
  split_ifs with h0
  · exact h
  · right
    rw [Nat.shiftRight_eq_div_pow] at h0
    by_contra hlt
    exact h0 (Nat.div_eq_of_lt (by omega))

/-- The search keeps the found position at or below the leading bit. -/
theorem foldl_bitStep_spec (n : Nat) (steps : List Nat) :
    ∀ e, (e = 0 ∨ 2 ^ e ≤ n) →
      (steps.foldl (bitStep n) e = 0 ∨ 2 ^ steps.foldl (bitStep n) e ≤ n) := by
  induction steps with
  | nil => intro e h; exact h
  | cons s tl ih => intro e h; exact ih _ (bitStep_spec n e s h)

/-- The position found is at or below the leading bit. -/
theorem floorLog2_spec (n : Nat) : floorLog2 n = 0 ∨ 2 ^ floorLog2 n ≤ n :=
  foldl_bitStep_spec n _ 0 (Or.inl rfl)

/-- Rounding never goes below a 53-bit value `m * 2 ^ j` that the quotient
reaches. -/
theorem round53Nat_ge (num den m j : Nat) (hm : m < 2 ^ 53)
    (h : m * 2 ^ j * den ≤ num) (hden : 0 < den) : m * 2 ^ j ≤ round53Nat num den := by
  unfold round53Nat
  simp only [Nat.shiftLeft_eq]
  set e := floorLog2 (num / den) with he
  set s := e - 52 with hs
  have hD : 0 < den * 2 ^ s := Nat.mul_pos hden (Nat.pow_pos (by norm_num))
  by_cases hj : s ≤ j
  · obtain ⟨t, rfl⟩ := Nat.exists_eq_add_of_le hj
    have h1 : m * 2 ^ t ≤ num / (den * 2 ^ s) := by
      rw [Nat.le_div_iff_mul_le hD]
      calc m * 2 ^ t * (den * 2 ^ s) = m * 2 ^ (s + t) * den := by rw [pow_add]; ring
        _ ≤ num := h
    calc m * 2 ^ (s + t) = m * 2 ^ t * 2 ^ s := by rw [pow_add]; ring
      _ ≤ roundNearestEven num (den * 2 ^ s) * 2 ^ s :=
        Nat.mul_le_mul_right _ (h1.trans (roundNearestEven_ge _ _))
  · push_neg at hj
    have hes : e = s + 52 := by omega
    have hpow : 2 ^ e ≤ num / den := by
      rcases floorLog2_spec (num / den) with h0 | h0
      · omega
      · exact h0
    have h2 : 2 ^ 52 ≤ num / (den * 2 ^ s) := by
      rw [← Nat.div_div_eq_div_mul, Nat.le_div_iff_mul_le (Nat.pow_pos (by norm_num))]
      calc 2 ^ 52 * 2 ^ s = 2 ^ e := by rw [hes, pow_add]; ring
        _ ≤ num / den := hpow
    have h3 : m * 2 ^ j ≤ 2 ^ 52 * 2 ^ s := by
      have : 2 ^ (j + 1) ≤ 2 ^ s := Nat.pow_le_pow_right (by norm_num) hj
      calc m * 2 ^ j ≤ 2 ^ 53 * 2 ^ j := Nat.mul_le_mul_right _ hm.le
        _ = 2 ^ 52 * 2 ^ (j + 1) := by rw [pow_succ]; ring
        _ ≤ 2 ^ 52 * 2 ^ s := Nat.mul_le_mul_left _ this
    exact h3.trans (Nat.mul_le_mul_right _ (h2.trans (roundNearestEven_ge _ _)))

/-- Rounding never goes above a 53-bit value `m * 2 ^ j` that bounds the
quotient. -/
theorem round53Nat_le (num den m j : Nat) (hm : m < 2 ^ 53)
    (h : num ≤ m * 2 ^ j * den) (hden : 0 < den) : round53Nat num den ≤ m * 2 ^ j := by
  unfold round53Nat
  simp only [Nat.shiftLeft_eq]
  set e := floorLog2 (num / den) with he
  set s := e - 52 with hs
  have hD : 0 < den * 2 ^ s := Nat.mul_pos hden (Nat.pow_pos (by norm_num))
  by_cases hj : s ≤ j
  · obtain ⟨t, rfl⟩ := Nat.exists_eq_add_of_le hj
    have h1 : roundNearestEven num (den * 2 ^ s) ≤ m * 2 ^ t := by
      apply roundNearestEven_le _ _ _ hD
      calc num ≤ m * 2 ^ (s + t) * den := h
        _ = m * 2 ^ t * (den * 2 ^ s) := by rw [pow_add]; ring
    calc roundNearestEven num (den * 2 ^ s) * 2 ^ s ≤ m * 2 ^ t * 2 ^ s :=
        Nat.mul_le_mul_right _ h1
      _ = m * 2 ^ (s + t) := by rw [pow_add]; ring
  · push_neg at hj
    exfalso
    have hes : e = s + 52 := by omega
    have hpow : 2 ^ e ≤ num / den := by
      rcases floorLog2_spec (num / den) with h0 | h0
      · omega
      · exact h0
    have hf : num / den ≤ m * 2 ^ j := Nat.div_le_of_le_mul (by rw [Nat.mul_comm]; exact h)
    have h3 : m * 2 ^ j < 2 ^ e := by
      have : 2 ^ (j + 1) ≤ 2 ^ s := Nat.pow_le_pow_right (by norm_num) hj
      calc m * 2 ^ j < 2 ^ 53 * 2 ^ j := Nat.mul_lt_mul_of_pos_right hm (Nat.pow_pos (by norm_num))
        _ = 2 ^ 52 * 2 ^ (j + 1) := by rw [pow_succ]; ring
        _ ≤ 2 ^ 52 * 2 ^ s := Nat.mul_le_mul_left _ this
        _ = 2 ^ e := by rw [hes, pow_add]; ring
    omega
/-- Zero rounds to zero. -/
theorem round53_zero (den : Int) : round53 0 den = 0 := by
  simp [round53]

/-- Rounding is symmetric about zero. -/
theorem round53_neg (num den : Int) : round53 (-num) den = -round53 num den := by
  simp [round53, Int.sign_neg]

/-- The lower bound of `round53Nat_ge`, for the signed operation on non-negative
arguments. -/
theorem round53_ofNat_ge (n dn m j : Nat) (hdn : 0 < dn) (hm : m < 2 ^ 53)
    (h : m * 2 ^ j * dn ≤ n) :
    ((m * 2 ^ j : Nat) : Int) ≤ round53 (n : Int) (dn : Int) := by
  rcases Nat.eq_zero_or_pos n with h0 | hpos
  · subst h0
    have : m * 2 ^ j = 0 := by
      rcases Nat.eq_zero_or_pos (m * 2 ^ j) with hz | hz
      · exact hz
      · exact absurd (Nat.mul_pos hz hdn) (by omega)
    simp [round53_zero, this]
  · have hs1 : Int.sign (n : Int) = 1 := Int.sign_eq_one_of_pos (by exact_mod_cast hpos)
    have hs2 : Int.sign (dn : Int) = 1 := Int.sign_eq_one_of_pos (by exact_mod_cast hdn)
    simp only [round53, hs1, hs2, Int.natAbs_ofNat, one_mul]
    exact_mod_cast round53Nat_ge n dn m j hm h hdn

/-- The upper bound of `round53Nat_le`, for the signed operation on non-negative
arguments. -/
theorem round53_ofNat_le (n dn m j : Nat) (hdn : 0 < dn) (hm : m < 2 ^ 53)
    (h : n ≤ m * 2 ^ j * dn) :
    round53 (n : Int) (dn : Int) ≤ ((m * 2 ^ j : Nat) : Int) := by
  rcases Nat.eq_zero_or_pos n with h0 | hpos
  · subst h0
    simp [round53_zero]
  · have hs1 : Int.sign (n : Int) = 1 := Int.sign_eq_one_of_pos (by exact_mod_cast hpos)
    have hs2 : Int.sign (dn : Int) = 1 := Int.sign_eq_one_of_pos (by exact_mod_cast hdn)
    simp only [round53, hs1, hs2, Int.natAbs_ofNat, one_mul]
    exact_mod_cast round53Nat_le n dn m j hm h hdn

/-- A non-negative quotient rounds to a non-negative double. -/
theorem round53_nonneg (num den : Int) (hnum : 0 ≤ num) (hden : 0 < den) :
    0 ≤ round53 num den := by
  unfold round53
  have h1 : 0 ≤ Int.sign num := Int.sign_nonneg.mpr hnum
  have h2 : Int.sign den = 1 := Int.sign_eq_one_of_pos hden
  rw [h2, mul_one]
  exact mul_nonneg h1 (Int.ofNat_nonneg _)

/-- Rounding never crosses a 53-bit value `q`: below. -/
theorem round53_ge (num den q : Int) (m j : Nat) (hden : 0 < den) (hm : m < 2 ^ 53)
    (hq : q.natAbs = m * 2 ^ j) (h : q * den ≤ num) : q ≤ round53 num den := by
  obtain ⟨dn, rfl⟩ := Int.eq_ofNat_of_zero_le hden.le
  have hdn : 0 < dn := by exact_mod_cast hden
  rcases le_or_lt 0 num with hnum | hnum
  · rcases le_or_lt q 0 with hq0 | hq0
    · exact hq0.trans (round53_nonneg _ _ hnum hden)
    · obtain ⟨n, rfl⟩ := Int.eq_ofNat_of_zero_le hnum
      have hqe : q = ((m * 2 ^ j : Nat) : Int) := by
        rw [← hq]; exact (Int.natAbs_of_nonneg hq0.le).symm
      rw [hqe] at h ⊢
      exact round53_ofNat_ge n dn m j hdn hm (by exact_mod_cast h)
  · have hq0 : q < 0 := by
      by_contra hcon
      push_neg at hcon
      have : 0 ≤ q * (dn : Int) := mul_nonneg hcon hden.le
      omega
    obtain ⟨n, hn⟩ := Int.eq_ofNat_of_zero_le (by omega : 0 ≤ -num)
    have hqe : -q = ((m * 2 ^ j : Nat) : Int) := by
      rw [← hq]; exact (Int.ofNat_natAbs_of_nonpos hq0.le).symm
    have hle : (n : Int) ≤ ((m * 2 ^ j : Nat) : Int) * (dn : Int) := by
      rw [← hn, ← hqe]; linarith
    have := round53_ofNat_le n dn m j hdn hm (by exact_mod_cast hle)
    rw [← hn, round53_neg, ← hqe] at this
    linarith

/-- Rounding never crosses a 53-bit value `q`: above. -/
theorem round53_le (num den q : Int) (m j : Nat) (hden : 0 < den) (hm : m < 2 ^ 53)
    (hq : q.natAbs = m * 2 ^ j) (h : num ≤ q * den) : round53 num den ≤ q := by
  have := round53_ge (-num) den (-q) m j hden hm (by simpa using hq) (by linarith)
  rw [round53_neg] at this
  linarith
/-- A shifted natural number, as an integer. -/
theorem natCast_shiftLeft (m n : Nat) : ((m <<< n : Nat) : Int) = (m : Int) * 2 ^ n := by
  rw [Nat.shiftLeft_eq, Nat.cast_mul, Nat.cast_pow]
  rfl

/-- The power `2 ^ 1044` in terms of `2 ^ 1042`. -/
theorem pow1044 : (2 : Int) ^ 1044 = 4 * 2 ^ 1042 := by
  rw [show (1044 : ℕ) = 1042 + 2 from rfl, pow_add]; ring

/-- The power `2 ^ 1074` in terms of `2 ^ 1042`. -/
theorem pow1074 : (2 : Int) ^ 1074 = 4294967296 * 2 ^ 1042 := by
  rw [show (1074 : ℕ) = 1042 + 32 from rfl, pow_add]; ring

/-- The double `1.0` is `2 ^ 32 * 2 ^ 1042` units. -/
theorem f64One_eq : f64One = 4294967296 * 2 ^ 1042 :=
  ((natCast_shiftLeft 1 1074).trans (one_mul _)).trans pow1074

/-- The double `3.5` is `7 * 2 ^ 31 * 2 ^ 1042` units. -/
theorem f64Lit3_5_eq : f64Lit3_5 = 15032385536 * 2 ^ 1042 := by
  have h : (2 : Int) ^ 1073 = 2147483648 * 2 ^ 1042 := by
    rw [show (1073 : ℕ) = 1042 + 31 from rfl, pow_add]; ring
  have h7 : f64Lit3_5 = 7 * 2 ^ 1073 := natCast_shiftLeft 7 1073
  rw [h7, h]; ring

/-- Rounding never crosses a value `t * 2 ^ g` with `|t| < 2 ^ 53`: below. -/
theorem round53_ge_grid (num den t : Int) (g : Nat) (hden : 0 < den) (ht : t.natAbs < 2 ^ 53)
    (h : t * 2 ^ g * den ≤ num) : t * 2 ^ g ≤ round53 num den :=
  round53_ge num den (t * 2 ^ g) t.natAbs g hden ht
    (by rw [Int.natAbs_mul, Int.natAbs_pow]; rfl) h

/-- Rounding never crosses a value `t * 2 ^ g` with `|t| < 2 ^ 53`: above. -/
theorem round53_le_grid (num den t : Int) (g : Nat) (hden : 0 < den) (ht : t.natAbs < 2 ^ 53)
    (h : num ≤ t * 2 ^ g * den) : round53 num den ≤ t * 2 ^ g :=
  round53_le num den (t * 2 ^ g) t.natAbs g hden ht
    (by rw [Int.natAbs_mul, Int.natAbs_pow]; rfl) h

/-- Integers below `2 ^ 53` in absolute value convert exactly. -/
theorem float64_exact (z : Int) (hz : z.natAbs < 2 ^ 53) : float64 z = z * f64One := by
  have hU : f64One = 2 ^ 1074 := by rw [f64One_eq, pow1074]
  unfold float64
  rw [hU]
  apply le_antisymm
  · exact round53_le_grid _ 1 z 1074 one_pos hz (by rw [mul_one])
  · exact round53_ge_grid _ 1 z 1074 one_pos hz (by rw [mul_one])

/-- Truncated division of a duration by an hour: quotient and remainder. -/
theorem tdiv_tmod_Hour (d : Int) :
    Hour * Int.tdiv d Hour + Int.tmod d Hour = d ∧
    -Hour < Int.tmod d Hour ∧ Int.tmod d Hour < Hour ∧
    (d.natAbs ≤ 2 ^ 63 → (Int.tdiv d Hour).natAbs ≤ 2562047) := by
  have e1 := Int.tdiv_add_tmod d Hour
  have e2 := Int.tmod_lt_of_pos d (show (0 : Int) < Hour by decide)
  rcases le_or_lt 0 d with hd | hd
  · have h1 : Int.tdiv d Hour = d / Hour := Int.tdiv_eq_ediv hd (by decide)
    rw [h1] at e1 ⊢
    simp only [Hour, Minute, Second] at *
    refine ⟨e1, by omega, e2, ?_⟩
    intro hb
    omega
  · have h1 : Int.tdiv d Hour = -((-d) / Hour) := by
      have := Int.neg_tdiv (-d) Hour
      rw [neg_neg] at this
      rw [this, Int.tdiv_eq_ediv (by omega) (by decide)]
    rw [h1] at e1 ⊢
    simp only [Hour, Minute, Second] at *
    refine ⟨e1, by omega, e2, ?_⟩
    intro hb
    omega

/-- With `t / 2 ^ 30` hours at most the duration `d`, `Hours d` is at least
`t / 2 ^ 30`. -/
theorem Hours_ge (d t : Int) (hd : d.natAbs ≤ 2 ^ 63) (ht : t.natAbs < 2 ^ 52)
    (h : t * Hour ≤ d * 2 ^ 30) : t * 2 ^ 1044 ≤ Hours d := by
  obtain ⟨e1, e2, e3, e4⟩ := tdiv_tmod_Hour d
  have e4 := e4 hd
  unfold Hours
  simp only
  generalize Int.tdiv d Hour = hr at *
  generalize Int.tmod d Hour = n at *
  rw [float64_exact hr (by omega), float64_exact n (by simp only [Hour, Minute, Second] at *; omega),
    float64_exact (60 * 60 * 1000000000) (by decide)]
  have hP : (0 : Int) < 2 ^ 1042 := by positivity
  have hHpos : (0 : Int) < 60 * 60 * 1000000000 * f64One := by
    rw [f64One_eq]; positivity
  -- the fraction of the hour
  have hc : ∃ c : Int, t - hr * 2 ^ 30 ≤ c ∧ c.natAbs < 2 ^ 53 ∧ c * Hour ≤ n * 2 ^ 30 := by
    refine ⟨max (t - hr * 2 ^ 30) (-2 ^ 30), le_max_left _ _, ?_, ?_⟩
    · simp only [Hour, Minute, Second] at *
      omega
    · simp only [Hour, Minute, Second] at *
      omega
  obtain ⟨c, hc1, hc2, hc3⟩ := hc
  have hq : c * 2 ^ 1044 ≤ f64Div (n * f64One) (60 * 60 * 1000000000 * f64One) := by
    unfold f64Div
    apply round53_ge_grid _ _ c 1044 hHpos hc2
    rw [f64One_eq, pow1044]
    simp only [Hour, Minute, Second] at hc3
    have : c * 3600000000000 * (2 ^ 1042 * 2 ^ 1042 * 17179869184)
        ≤ n * 2 ^ 30 * (2 ^ 1042 * 2 ^ 1042 * 17179869184) :=
      mul_le_mul_of_nonneg_right hc3 (by positivity)
    linarith
  unfold f64Add
  apply round53_ge_grid _ 1 t 1044 one_pos (by omega)
  rw [f64One_eq] at hq ⊢
  rw [pow1044] at hq ⊢
  have : (t - hr * 2 ^ 30) * (4 * 2 ^ 1042) ≤ c * (4 * 2 ^ 1042) :=
    mul_le_mul_of_nonneg_right hc1 (by positivity)
  linarith
/-- The method `Hours` is symmetric about zero. -/
theorem Hours_neg (d : Int) : Hours (-d) = -Hours d := by
  have h1 : Int.tdiv (-d) Hour = -Int.tdiv d Hour := Int.neg_tdiv d Hour
  have h2 : Int.tmod (-d) Hour = -Int.tmod d Hour := by
    rw [Int.tmod_def, Int.tmod_def, h1]; ring
  unfold Hours
  simp only [h1, h2, float64, f64Div, f64Add, neg_mul, round53_neg, ← neg_add]

/-- With the duration `d` at most `t / 2 ^ 30` hours, `Hours d` is at most
`t / 2 ^ 30`. -/
theorem Hours_le (d t : Int) (hd : d.natAbs ≤ 2 ^ 63) (ht : t.natAbs < 2 ^ 52)
    (h : d * 2 ^ 30 ≤ t * Hour) : Hours d ≤ t * 2 ^ 1044 := by
  have := Hours_ge (-d) (-t) (by simpa using hd) (by simpa using ht) (by linarith)
  rw [Hours_neg] at this
  linarith

/-- The quotient of line 98 is symmetric about zero. -/
theorem intervalsPassed_neg (d : Int) : intervalsPassed (-d) = -intervalsPassed d := by
  simp only [intervalsPassed, Hours_neg, f64Div, neg_mul, round53_neg]

/-- With `t / 2 ^ 30` hours at most the elapsed time and `v / 2 ^ 32` intervals at most
`t / 2 ^ 30` hours, the computed quotient is at least `v / 2 ^ 32`. -/
theorem intervalsPassed_ge (d t v : Int) (hd : d.natAbs ≤ 2 ^ 63) (ht : t.natAbs < 2 ^ 52)
    (hv : v.natAbs < 2 ^ 53) (hvt : 7 * v ≤ 8 * t) (h : t * Hour ≤ d * 2 ^ 30) :
    v * 2 ^ 1042 ≤ intervalsPassed d := by
  have hH := Hours_ge d t hd ht h
  unfold intervalsPassed f64Div
  have hpos : (0 : Int) < f64Lit3_5 := by rw [f64Lit3_5_eq]; positivity
  apply round53_ge_grid _ _ v 1042 hpos hv
  rw [f64Lit3_5_eq, f64One_eq]
  rw [pow1044] at hH
  have h1 : t * (4 * 2 ^ 1042) * (4294967296 * 2 ^ 1042)
      ≤ Hours d * (4294967296 * 2 ^ 1042) :=
    mul_le_mul_of_nonneg_right hH (by positivity)
  have h2 : 7 * v * (2147483648 * (2 ^ 1042 * 2 ^ 1042))
      ≤ 8 * t * (2147483648 * (2 ^ 1042 * 2 ^ 1042)) :=
    mul_le_mul_of_nonneg_right hvt (by positivity)
  linarith

/-- The upper counterpart of `intervalsPassed_ge`. -/
theorem intervalsPassed_le (d t v : Int) (hd : d.natAbs ≤ 2 ^ 63) (ht : t.natAbs < 2 ^ 52)
    (hv : v.natAbs < 2 ^ 53) (hvt : 8 * t ≤ 7 * v) (h : d * 2 ^ 30 ≤ t * Hour) :
    intervalsPassed d ≤ v * 2 ^ 1042 := by
  have := intervalsPassed_ge (-d) (-t) (-v) (by simpa using hd) (by simpa using ht)
    (by simpa using hv) (by linarith) (by linarith)
  rw [intervalsPassed_neg] at this
  linarith

/-- At least `k` whole intervals elapsed: the quotient is at least `k`. -/
theorem intervalsPassed_ge_int (d k : Int) (hd : d.natAbs ≤ 2 ^ 63) (hk : k.natAbs ≤ 1000000)
    (h : k * eventInterval ≤ d) : k * f64One ≤ intervalsPassed d := by
  have := intervalsPassed_ge d (k * 3758096384) (k * 4294967296) hd (by omega) (by omega)
    (by omega) (by simp only [Hour, Minute, Second, eventInterval] at *; omega)
  rw [f64One_eq]
  linarith

/-- At most `k` whole intervals elapsed: the quotient is at most `k`. -/
theorem intervalsPassed_le_int (d k : Int) (hd : d.natAbs ≤ 2 ^ 63) (hk : k.natAbs ≤ 1000000)
    (h : d ≤ k * eventInterval) : intervalsPassed d ≤ k * f64One := by
  have := intervalsPassed_le d (k * 3758096384) (k * 4294967296) hd (by omega) (by omega)
    (by omega) (by simp only [Hour, Minute, Second, eventInterval] at *; omega)
  rw [f64One_eq]
  linarith

/-- More than 3353 ns short of `k` whole intervals: the quotient stays below `k`. -/
theorem intervalsPassed_lt_int (d k : Int) (hd : d.natAbs ≤ 2 ^ 63) (hk : k.natAbs ≤ 1000000)
    (h : d + 3353 ≤ k * eventInterval) : intervalsPassed d < k * f64One := by
  have := intervalsPassed_le d (k * 3758096384 - 1) (k * 4294967296 - 1) hd (by omega) (by omega)
    (by omega) (by simp only [Hour, Minute, Second, eventInterval] at *; omega)
  rw [f64One_eq]
  have hP : (0 : Int) < 2 ^ 1042 := by positivity
  linarith

/-- The double `1.0` is positive. -/
theorem f64One_pos : 0 < f64One := by rw [f64One_eq]; positivity

/-- Truncated division by a positive number is monotone. -/
theorem tdiv_mono (a b c : Int) (hc : 0 < c) (h : a ≤ b) : Int.tdiv a c ≤ Int.tdiv b c := by
  have neg : ∀ x : Int, x < 0 → Int.tdiv x c = -((-x) / c) := by
    intro x hx
    have := Int.neg_tdiv (-x) c
    rw [neg_neg] at this
    rw [this, Int.tdiv_eq_ediv (by omega) hc.le]
  rcases le_or_lt 0 a with ha | ha
  · rw [Int.tdiv_eq_ediv ha hc.le, Int.tdiv_eq_ediv (ha.trans h) hc.le]
    exact Int.ediv_le_ediv hc h
  · rcases le_or_lt 0 b with hb | hb
    · rw [neg a ha, Int.tdiv_eq_ediv hb hc.le]
      have h1 : 0 ≤ (-a) / c := Int.ediv_nonneg (by omega) hc.le
      have h2 : 0 ≤ b / c := Int.ediv_nonneg hb hc.le
      omega
    · rw [neg a ha, neg b hb]
      have := Int.ediv_le_ediv hc (show -b ≤ -a by omega)
      omega

/-- Truncation keeps a double between the whole numbers that bound it. -/
theorem f64Trunc_bounds (r lo hi : Int) (h1 : lo * f64One ≤ r) (h2 : r ≤ hi * f64One) :
    lo ≤ f64Trunc r ∧ f64Trunc r ≤ hi := by
  have hne : f64One ≠ 0 := f64One_pos.ne'
  constructor
  · have := tdiv_mono _ _ _ f64One_pos h1
    rwa [Int.mul_tdiv_cancel _ hne] at this
  · have := tdiv_mono _ _ _ f64One_pos h2
    rwa [Int.mul_tdiv_cancel _ hne] at this

/-- A non-negative double below the whole number `hi` truncates below `hi`. -/
theorem f64Trunc_lt (r hi : Int) (h0 : 0 ≤ r) (h2 : r < hi * f64One) : f64Trunc r < hi := by
  unfold f64Trunc
  rw [Int.tdiv_eq_ediv h0 f64One_pos.le]
  exact Int.ediv_lt_of_lt_mul f64One_pos h2

/-- A search step halves the window above the found position. -/
theorem bitStep_lt (n e step bound : Nat) (hb : bound = step + step)
    (h : n < 2 ^ (e + bound)) : n < 2 ^ (bitStep n e step + step) := by
  subst hb
  unfold bitStep
  split_ifs with h0
  · rw [Nat.shiftRight_eq_div_pow] at h0
    exact (Nat.div_eq_zero_iff (Nat.pow_pos (by norm_num))).mp h0
  · rw [Nat.add_assoc]
    exact h

/-- For `0 < n < 2 ^ 4096` the binary search finds the leading bit. -/
theorem floorLog2_bounds (n : Nat) (h0 : 0 < n) (h : n < 2 ^ (0 + 4096)) :
    2 ^ floorLog2 n ≤ n ∧ n < 2 ^ (floorLog2 n + 1) := by
  constructor
  · rcases floorLog2_spec n with hz | hz
    · rw [hz]; exact h0
    · exact hz
  · unfold floorLog2
    repeat rw [List.foldl_cons]
    rw [List.foldl_nil]
    have s1 := bitStep_lt n 0 2048 4096 (by decide) h
    have s2 := bitStep_lt n _ 1024 2048 (by decide) s1
    have s3 := bitStep_lt n _ 512 1024 (by decide) s2
    have s4 := bitStep_lt n _ 256 512 (by decide) s3
    have s5 := bitStep_lt n _ 128 256 (by decide) s4
    have s6 := bitStep_lt n _ 64 128 (by decide) s5
    have s7 := bitStep_lt n _ 32 64 (by decide) s6
    have s8 := bitStep_lt n _ 16 32 (by decide) s7
    have s9 := bitStep_lt n _ 8 16 (by decide) s8
    have s10 := bitStep_lt n _ 4 8 (by decide) s9
    have s11 := bitStep_lt n _ 2 4 (by decide) s10
    exact bitStep_lt n _ 1 2 (by decide) s11

/-- The rounded quotient is within half a unit of `a / b`, and even on a tie. -/
theorem roundNearestEven_nearest (a b : Nat) (hb : 0 < b) :
    2 * (a - roundNearestEven a b * b) ≤ b ∧
    2 * (roundNearestEven a b * b - a) ≤ b ∧
    (2 * (a - roundNearestEven a b * b) = b ∨ 2 * (roundNearestEven a b * b - a) = b →
      roundNearestEven a b % 2 = 0) := by
  have hdm := Nat.div_add_mod a b
  have hr := Nat.mod_lt a hb
  have e1 : a / b * b = b * (a / b) := Nat.mul_comm _ _
  have e2 : (a / b + 1) * b = b * (a / b) + b := by ring
  unfold roundNearestEven
  simp only
  split_ifs with h1 h2 h3
  · rw [e1]; omega
  · rw [e2]; omega
  · rw [e1]; omega
  · rw [e2]; omega

/-- What `round53Nat` returns: a multiple of the unit in the last place `2 ^ s`,
within half that unit of `num / den`, with an even last place on a tie, and, for
a quotient below `2 ^ 4096`, with a significand of at most 53 bits (or the next
power of two). -/
theorem round53Nat_nearest (num den : Nat) (hden : 0 < den) :
    2 ^ (floorLog2 (num / den) - 52) ∣ round53Nat num den ∧
    2 * (num - round53Nat num den * den) ≤ den * 2 ^ (floorLog2 (num / den) - 52) ∧
    2 * (round53Nat num den * den - num) ≤ den * 2 ^ (floorLog2 (num / den) - 52) ∧
    (2 * (num - round53Nat num den * den) = den * 2 ^ (floorLog2 (num / den) - 52) ∨
      2 * (round53Nat num den * den - num) = den * 2 ^ (floorLog2 (num / den) - 52) →
      round53Nat num den / 2 ^ (floorLog2 (num / den) - 52) % 2 = 0) ∧
    (num / den < 2 ^ (0 + 4096) →
      round53Nat num den ≤ 2 ^ 53 * 2 ^ (floorLog2 (num / den) - 52)) := by
  have hp : 0 < 2 ^ (floorLog2 (num / den) - 52) := Nat.pow_pos (by norm_num)
  have hD : 0 < den * 2 ^ (floorLog2 (num / den) - 52) := Nat.mul_pos hden hp
  obtain ⟨n1, n2, n3⟩ := roundNearestEven_nearest num _ hD
  have hR : round53Nat num den = roundNearestEven num
      (den * 2 ^ (floorLog2 (num / den) - 52)) * 2 ^ (floorLog2 (num / den) - 52) := by
    simp only [round53Nat, Nat.shiftLeft_eq]
  have hRd : round53Nat num den * den = roundNearestEven num
      (den * 2 ^ (floorLog2 (num / den) - 52)) * (den * 2 ^ (floorLog2 (num / den) - 52)) := by
    rw [hR]; ring
  refine ⟨?_, ?_, ?_, ?_, ?_⟩
  · rw [hR]; exact Dvd.intro_left _ rfl
  · rw [hRd]; exact n1
  · rw [hRd]; exact n2
  · rw [hRd]
    intro h
    rw [hR, Nat.mul_div_cancel _ hp]
    exact n3 h
  · intro hlt
    rw [hR]
    apply Nat.mul_le_mul_right
    have hq : num / (den * 2 ^ (floorLog2 (num / den) - 52)) < 2 ^ 53 := by
      rw [← Nat.div_div_eq_div_mul, Nat.div_lt_iff_lt_mul hp]
      rcases Nat.eq_zero_or_pos (num / den) with h0 | h0
      · rw [h0]; positivity
      · obtain ⟨-, hb⟩ := floorLog2_bounds _ h0 hlt
        refine hb.trans_le ?_
        rw [← pow_add]
        exact Nat.pow_le_pow_right (by norm_num) (by omega)
    have hle : roundNearestEven num (den * 2 ^ (floorLog2 (num / den) - 52))
        ≤ num / (den * 2 ^ (floorLog2 (num / den) - 52)) + 1 := by
      unfold roundNearestEven
      simp only
      split_ifs <;> omega
    omega

/-- Values inside the signed 64-bit range are not changed by the wrap-around. -/
theorem wrapInt64_id (x : Int) (h : -9223372036854775808 ≤ x ∧ x ≤ 9223372036854775807) :
    wrapInt64 x = x := by
  unfold wrapInt64; omega

/-- The shape of the computed event time while the span from the epoch to `now` stays
below 732012 intervals: the truncated quotient `t` is the floor of the exact quotient
or one more, and the one-interval correction does not fire. -/
theorem nextEventTime_shape (initialEvent now : Int)
    (h : now - initialEvent < 732012 * eventInterval) :
    ∃ t : Int,
      f64Trunc (intervalsPassed (timeSub now initialEvent)) = t ∧
      timeSub now initialEvent / eventInterval ≤ t ∧
      t ≤ timeSub now initialEvent / eventInterval + 1 ∧
      now - initialEvent ≤ timeSub now initialEvent ∧
      nextEventTime initialEvent now = initialEvent + (t + 1) * eventInterval := by
  unfold nextEventTime
  simp only
  have hd : minDuration ≤ timeSub now initialEvent ∧
      timeSub now initialEvent < 732012 * eventInterval ∧
      now - initialEvent ≤ timeSub now initialEvent := by
    unfold timeSub
    simp only [minDuration, maxDuration, eventInterval, Hour, Minute, Second] at *
    split_ifs <;> omega
  generalize timeSub now initialEvent = d at hd ⊢
  obtain ⟨hd1, hd2, hd3⟩ := hd
  have hI : eventInterval = 12600000000000 := by decide
  simp only [minDuration] at hd1
  rw [hI] at hd2
  have hk1 : -732014 ≤ d / eventInterval := by rw [hI]; omega
  have hk2 : d / eventInterval ≤ 732011 := by rw [hI]; omega
  have hk3 : d / eventInterval * eventInterval ≤ d := by rw [hI]; omega
  have hk4 : d ≤ (d / eventInterval + 1) * eventInterval := by rw [hI]; omega
  have hk5 : d < (d / eventInterval + 1) * eventInterval := by rw [hI]; omega
  generalize d / eventInterval = k at *
  have hdabs : d.natAbs ≤ 2 ^ 63 := by omega
  have hlo := intervalsPassed_ge_int d k hdabs (by omega) hk3
  have hhi := intervalsPassed_le_int d (k + 1) hdabs (by omega) hk4
  obtain ⟨ht1, ht2⟩ := f64Trunc_bounds _ _ _ hlo hhi
  refine ⟨f64Trunc (intervalsPassed d), rfl, ht1, ht2, hd3, ?_⟩
  generalize f64Trunc (intervalsPassed d) = t at *
  rw [wrapInt64_id (t + 1) (by omega),
    wrapInt64_id ((t + 1) * eventInterval) (by rw [hI]; omega)]
  rw [hI] at hk5 ⊢
  rw [if_neg (by omega)]


/-! ### Proofs: the next event -/

/-- The scenario of the specification: epoch `2024-01-01T00:00:00Z`, now
`2024-01-01T05:00:00Z`; the event is at `07:00:00Z`, the notification at
`06:55:00Z`, the sleep lasts 1h55m. -/
theorem nextEventTime_scenario :
    nextEventTime (1704067200 * Second) (1704085200 * Second) = 1704092400 * Second ∧
    notificationTime (1704067200 * Second) (1704085200 * Second) = 1704092100 * Second ∧
    delay (1704067200 * Second) (1704085200 * Second) = 1 * Hour + 55 * Minute := by
  decide

/-- C1, as the claim states it, fails: with the epoch `1700-01-01T00:00:00Z` and
now `2024-01-01T00:00:00Z`, more than 292 years apart, `Time.Sub` saturates, the
multiplication by the interval wraps around, and the computed event time is not
after now. -/
theorem nextEventTime_overflow_counterexample :
    ¬ (1704067200 * Second < nextEventTime (-8520336000 * Second) (1704067200 * Second)) := by
  decide

/-- C1 (amended): whenever now is less than 732012 intervals (about 292.27
years) after the epoch, also when it is before the epoch, the computed event
time is strictly after now. -/
theorem nextEventTime_after_now (initialEvent now : Int)
    (h : now - initialEvent < 732012 * eventInterval) :
    now < nextEventTime initialEvent now := by
  obtain ⟨t, -, ht1, -, hd, hN⟩ := nextEventTime_shape initialEvent now h
  rw [hN]
  have hI : eventInterval = 12600000000000 := by decide
  rw [hI] at ht1 ⊢
  generalize timeSub now initialEvent = d at *
  omega

/-- Witness for C1 (amended) at the scenario of the specification. -/
theorem nextEventTime_after_now_witness :
    1704085200 * Second - 1704067200 * Second < 732012 * eventInterval ∧
    1704085200 * Second < nextEventTime (1704067200 * Second) (1704085200 * Second) :=
  ⟨by decide, nextEventTime_after_now (1704067200 * Second) (1704085200 * Second) (by decide)⟩

/-- C2 fails on the code.  With the epoch `2024-01-02T00:00:00Z` one hour ahead of
now `2024-01-01T23:00:00Z` the computed event time is epoch plus one interval, so
the occurrence at the epoch is skipped and `N - I <= now` is false.  With the
epoch `2024-01-01T00:00:00Z` and now one nanosecond before the occurrence number
1172 the quotient rounds up to 1172 and the computed event time is occurrence
number 1173, one interval and one nanosecond after now. -/
theorem nextEventTime_skips_occurrence :
    1704150000 * Second < 1704153600 * Second ∧
    nextEventTime (1704153600 * Second) (1704150000 * Second)
      = 1704153600 * Second + eventInterval ∧
    ¬ (nextEventTime (1704153600 * Second) (1704150000 * Second) - eventInterval
        ≤ 1704150000 * Second) ∧
    nextEventTime (1704067200 * Second) (1704067200 * Second + 1172 * eventInterval - 1)
      = 1704067200 * Second + 1173 * eventInterval ∧
    ¬ (nextEventTime (1704067200 * Second) (1704067200 * Second + 1172 * eventInterval - 1)
        - eventInterval ≤ 1704067200 * Second + 1172 * eventInterval - 1) := by
  decide

/-- Where C2 does hold: from the epoch on, less than 732012 intervals after it and
not within the last 3353 ns before an occurrence, the computed event time is at
most one interval after now. -/
theorem nextEventTime_tight (initialEvent now : Int) (h0 : initialEvent ≤ now)
    (h1 : now - initialEvent < 732012 * eventInterval)
    (hm : (now - initialEvent) % eventInterval + 3353 ≤ eventInterval) :
    nextEventTime initialEvent now - eventInterval ≤ now := by
  obtain ⟨t, htr, ht1, ht2, hd, hN⟩ := nextEventTime_shape initialEvent now h1
  have hI : eventInterval = 12600000000000 := by decide
  have hsub : timeSub now initialEvent = now - initialEvent := by
    unfold timeSub
    simp only [minDuration, maxDuration]
    rw [hI] at h1
    split_ifs <;> omega
  rw [hsub] at htr ht1 ht2
  have hge := intervalsPassed_ge_int (now - initialEvent) 0 (by rw [hI] at h1; omega)
    (by decide) (by omega)
  have hlt := intervalsPassed_lt_int (now - initialEvent)
    ((now - initialEvent) / eventInterval + 1) (by rw [hI] at h1; omega)
    (by rw [hI] at h1 ⊢; omega) (by rw [hI] at hm ⊢; omega)
  rw [zero_mul] at hge
  have := f64Trunc_lt _ _ hge hlt
  rw [htr] at this
  rw [hN]
  rw [hI] at ht1 this ⊢
  omega

/-- The off-by-one before the epoch, in general: whenever now is less than one
interval (less 3353 ns) before the epoch, the computed event time is the epoch
plus one interval, and the occurrence at the epoch itself is passed over. -/
theorem nextEventTime_before_epoch (initialEvent now : Int)
    (h1 : initialEvent - eventInterval + 3353 ≤ now) (h2 : now < initialEvent) :
    nextEventTime initialEvent now = initialEvent + eventInterval := by
  have hI : eventInterval = 12600000000000 := by decide
  obtain ⟨t, htr, ht1, ht2, hd, hN⟩ :=
    nextEventTime_shape initialEvent now (by rw [hI]; omega)
  have hsub : timeSub now initialEvent = now - initialEvent := by
    unfold timeSub
    simp only [minDuration, maxDuration]
    rw [hI] at h1
    split_ifs <;> omega
  rw [hsub] at htr ht1 ht2
  have hlt := intervalsPassed_lt_int (-(now - initialEvent)) 1 (by rw [hI] at h1; omega)
    (by decide) (by rw [hI] at h1 ⊢; omega)
  have hge := intervalsPassed_ge_int (-(now - initialEvent)) 0 (by rw [hI] at h1; omega)
    (by decide) (by omega)
  rw [zero_mul] at hge
  have hpos := f64Trunc_lt _ _ hge hlt
  have hnn : 0 ≤ f64Trunc (intervalsPassed (-(now - initialEvent))) :=
    (f64Trunc_bounds _ 0 1 (by rw [zero_mul]; exact hge) hlt.le).1
  have hneg : f64Trunc (intervalsPassed (-(now - initialEvent)))
      = -f64Trunc (intervalsPassed (now - initialEvent)) := by
    rw [intervalsPassed_neg]
    exact Int.neg_tdiv _ _
  rw [hneg, htr] at hpos hnn
  have ht0 : t = 0 := by omega
  rw [hN, ht0]
  ring

/-- C3, as the claim states it, fails: with the epoch `2024-01-02T00:00:00Z` and
now `2024-01-01T00:00:00Z`, a day earlier, the computed event time is the epoch
minus five intervals, and no non-negative multiple of the interval leads to it. -/
theorem nextEventTime_negative_multiple_counterexample :
    ¬ ∃ k : Int, 0 ≤ k ∧
      nextEventTime (1704153600 * Second) (1704067200 * Second)
        = 1704153600 * Second + k * eventInterval := by
  have h : nextEventTime (1704153600 * Second) (1704067200 * Second)
      = 1704153600 * Second + (-5) * eventInterval := by decide
  rintro ⟨k, hk, he⟩
  rw [h] at he
  have hI : eventInterval = 12600000000000 := by decide
  rw [hI] at he
  omega

/-- C3 (amended): whenever now is less than 732012 intervals after the epoch, the
computed event time is the epoch plus a whole number `k` of intervals, and `k` is
not negative when now is no more than one interval before the epoch. -/
theorem nextEventTime_on_grid (initialEvent now : Int)
    (h : now - initialEvent < 732012 * eventInterval) :
    ∃ k : Int, nextEventTime initialEvent now = initialEvent + k * eventInterval ∧
      (initialEvent - eventInterval ≤ now → 0 ≤ k) := by
  obtain ⟨t, -, ht1, -, hd, hN⟩ := nextEventTime_shape initialEvent now h
  refine ⟨t + 1, hN, ?_⟩
  intro h2
  have hI : eventInterval = 12600000000000 := by decide
  rw [hI] at ht1 h2
  generalize timeSub now initialEvent = d at *
  omega

/-- Witness for C3 (amended) at the scenario of the specification. -/
theorem nextEventTime_on_grid_witness :
    1704085200 * Second - 1704067200 * Second < 732012 * eventInterval ∧
    ∃ k : Int, nextEventTime (1704067200 * Second) (1704085200 * Second)
        = 1704067200 * Second + k * eventInterval ∧
      (1704067200 * Second - eventInterval ≤ 1704085200 * Second → 0 ≤ k) :=
  ⟨by decide, nextEventTime_on_grid (1704067200 * Second) (1704085200 * Second) (by decide)⟩

/-- C10, as the claim states it, fails: with the epoch `1700-01-01T00:00:00Z` and
now `2024-01-01T00:00:00Z` the epoch is not after now, yet the delay is the least
duration, far below minus five minutes. -/
theorem delay_overflow_counterexample :
    -8520336000 * Second ≤ 1704067200 * Second ∧
    ¬ (-5 * Minute < delay (-8520336000 * Second) (1704067200 * Second)) := by
  decide

/-- C10 (amended): from the epoch on and less than 732012 intervals after it, the
notification instant is the event time minus five minutes, the delay is the
notification instant minus now and is more than minus five minutes, it is
negative exactly when now is past the notification instant, a negative delay
means no sleep, and the delay is at most 3h25m whenever now is not within the
last 3353 ns before an occurrence. -/
theorem delay_bounds (initialEvent now : Int) (h0 : initialEvent ≤ now)
    (h1 : now - initialEvent < 732012 * eventInterval) :
    notificationTime initialEvent now = nextEventTime initialEvent now - 5 * Minute ∧
    delay initialEvent now = nextEventTime initialEvent now - 5 * Minute - now ∧
    -5 * Minute < delay initialEvent now ∧
    (delay initialEvent now < 0 ↔ nextEventTime initialEvent now - 5 * Minute < now) ∧
    (delay initialEvent now < 0 → sleepDuration (delay initialEvent now) = 0) ∧
    ((now - initialEvent) % eventInterval + 3353 ≤ eventInterval →
      delay initialEvent now ≤ 3 * Hour + 25 * Minute) := by
  obtain ⟨t, htr, ht1, ht2, hd, hN⟩ := nextEventTime_shape initialEvent now h1
  have hI : eventInterval = 12600000000000 := by decide
  have hsub : timeSub now initialEvent = now - initialEvent := by
    unfold timeSub
    simp only [minDuration, maxDuration]
    rw [hI] at h1
    split_ifs <;> omega
  rw [hsub] at htr ht1 ht2
  have hnot : notificationTime initialEvent now = nextEventTime initialEvent now - 5 * Minute := by
    unfold notificationTime
    rw [wrapInt64_id _ (by decide)]
    ring
  have hM : Minute = 60000000000 := by decide
  have hH : Hour = 3600000000000 := by decide
  have hdel : delay initialEvent now = nextEventTime initialEvent now - 5 * Minute - now := by
    unfold delay timeSub
    simp only [minDuration, maxDuration, hnot, hN, hM]
    rw [hI] at h1 ht1 ht2 ⊢
    split_ifs <;> omega
  refine ⟨hnot, hdel, ?_, ?_, ?_, ?_⟩
  · rw [hdel, hN, hM]
    rw [hI] at ht1 ⊢
    omega
  · rw [hdel]
    constructor <;> intro h <;> omega
  · intro h
    unfold sleepDuration
    rw [if_pos h.le]
  · intro hm
    have hge := intervalsPassed_ge_int (now - initialEvent) 0 (by rw [hI] at h1; omega)
      (by decide) (by omega)
    have hlt := intervalsPassed_lt_int (now - initialEvent)
      ((now - initialEvent) / eventInterval + 1) (by rw [hI] at h1; omega)
      (by rw [hI] at h1 ⊢; omega) (by rw [hI] at hm ⊢; omega)
    rw [zero_mul] at hge
    have := f64Trunc_lt _ _ hge hlt
    rw [htr] at this
    rw [hdel, hN, hM, hH]
    rw [hI] at ht1 this ⊢
    omega


/-- Witness for C10 (amended) at the scenario of the specification. -/
theorem delay_bounds_witness :
    1704067200 * Second ≤ 1704085200 * Second ∧
    1704085200 * Second - 1704067200 * Second < 732012 * eventInterval ∧
    -5 * Minute < delay (1704067200 * Second) (1704085200 * Second) :=
  ⟨by decide, by decide,
    (delay_bounds (1704067200 * Second) (1704085200 * Second) (by decide) (by decide)).2.2.1⟩

end GoCrons
